import Mathlib

/-!
Verification of the avrecode recode engine against its specification.

The definitions below are a shallow embedding of the C++ sources:

* `arithmetic_code.h` — the generic binary arithmetic encoder, at the
  instantiation `arithmetic_code<uint64_t, uint8_t>` (`recoded_code` in
  `recode.cpp`) that is used for recoded CABAC blocks.  Machine words are
  modelled as `Nat` with explicit `% 2^64` wherever the C++ `uint64_t`
  arithmetic can wrap; `uint8_t` digits are `Nat` values reduced `% 256`.
  The C++ `while` loops are modelled with an explicit fuel argument large
  enough that the loop guard is false when the fuel is exhausted in every
  reachable state; theorems establish the guard condition where they need it.
* `recode.cpp` — the model (`h264_model`), the per-symbol driver
  (`h264_symbol::execute`, `decompressor::cabac_decoder::get`), the splice
  layer (`find_next_coded_block_and_emit_literal`, `read_packet`,
  `make_surrogate_block`, `next_surrogate_marker`) and the roundtrip driver.
  C++ arrays indexed by macroblock coordinates are modelled as total
  functions, C++ `std::map` as a total function with the C++ default value.
-/

/-! ### Constants of `arithmetic_code<uint64_t, uint8_t>` (aka `recoded_code`) -/

/-- `2^64`, the modulus of `uint64_t` arithmetic. -/

def two64 : Nat := 2 ^ 64

/-- `fixed_one = numeric_limits<uint64_t>::max()/2 + 1 = 2^63`. -/

def fixed_one : Nat := 2 ^ 63

/-- `compressed_digit_base = uint8_t max + 1 = 0x100`; for `recoded_code`
the output digit base is the same (`OutputDigit = uint8_t`). -/

def digit_base : Nat := 256

/-- `most_significant_digit = fixed_one / digit_base = 2^55`. -/

def most_significant_digit : Nat := fixed_one / digit_base

/-- `min_range = (fixed_one/compressed_digit_base) / 16 = 2^51`
(the `MinRange` template argument is 0 for `recoded_code`). -/

def min_range : Nat := fixed_one / digit_base / 16

/-! ### Encoder state (`arithmetic_code::encoder`) -/

/-- The mutable state of `arithmetic_code<uint64_t,uint8_t>::encoder`:
`low`, `range` (uint64), the `overflow` vector of deferred compressed
digits, and the digits already emitted through the output iterator. -/

structure EncState where
  low : Nat
  range : Nat
  overflow : List Nat
  out : List Nat
deriving DecidableEq

/-- A fresh `encoder` (`low = 0`, `range = fixed_one`, empty queues). -/

def initEnc : EncState := ⟨0, fixed_one, [], []⟩

/-- Carry cascade on the reversed overflow list: `++overflow[i]` in `uint8_t`
from the lowest (last) digit upwards, stopping at the first digit that does
not wrap to zero (the loop `for (i = overflow.size()-1; i >= 0; i--)`). -/

def incCarryRev : List Nat → List Nat
  | [] => []
  | d :: ds => if (d + 1) % 256 = 0 then 0 :: incCarryRev ds else ((d + 1) % 256) :: ds

/-- Increment the overflow queue's lowest digit with carry propagation upward. -/

def incOverflow (l : List Nat) : List Nat := (incCarryRev l.reverse).reverse

/-- One call of `renormalize_and_emit_digit<Digit>`.  For `recoded_code` both
instantiations (`Digit = CompressedDigit = uint8_t` from `put` and
`Digit = OutputDigit = uint8_t` from `finish`) are this same function. -/

def renormalize (s : EncState) : EncState :=
  -- Check for a carry bit, and cascade from lowest overflow digit to highest.
  let s := if fixed_one ≤ s.low
           then { s with overflow := incOverflow s.overflow, low := s.low - fixed_one }
           else s
  -- digit = Digit(low / most_significant_digit)
  let digit := s.low / most_significant_digit % 256
  -- Digit((low + range - 1) / most_significant_digit), with uint64 wrap-around
  let top := (s.low + s.range + (two64 - 1)) % two64 / most_significant_digit % 256
  if digit ≠ top then
    { s with overflow := s.overflow ++ [digit],
             low := (s.low - digit * most_significant_digit) * digit_base % two64,
             range := s.range * digit_base % two64 }
  else
    { s with out := s.out ++ s.overflow ++ [digit],
             overflow := [],
             low := (s.low - digit * most_significant_digit) * digit_base % two64,
             range := s.range * digit_base % two64 }

/-- The loop `while (range < min_range) renormalize_and_emit_digit();` of
`put`, with explicit fuel.  For any split produced by a valid probability
function (`range ≥ 1`) at most 7 iterations run, so fuel 64 is never
exhausted before the guard fails. -/

def putLoopF : Nat → EncState → EncState
  | 0, s => s
  | fuel + 1, s => if s.range < min_range then putLoopF fuel (renormalize s) else s

/-- `encoder::put(symbol, probability_of_1)`.  The probability function is
evaluated at the current `range` exactly as in the source. -/

def EncState.put (s : EncState) (symbol : Bool) (probability_of_1 : Nat → Nat) : EncState :=
  let range_of_1 := probability_of_1 s.range % two64
  let range_of_0 := (s.range + (two64 - range_of_1)) % two64
  let s := if symbol
           then { s with low := (s.low + range_of_0) % two64, range := range_of_1 }
           else { s with range := range_of_0 }
  putLoopF 64 s

/-- Run a list of `put` calls, each given by its symbol and the value `r1`
its probability function returns at the current range. -/

def runPuts (s : EncState) : List (Bool × Nat) → EncState
  | [] => s
  | (sym, r1) :: rest => runPuts (s.put sym (fun _ => r1)) rest

/-- Check that every `put` of a trace is made with a probability function
returning `r1` with `0 < r1 < range` at the range current for that call. -/

def validTrace (s : EncState) : List (Bool × Nat) → Bool
  | [] => true
  | (sym, r1) :: rest =>
    decide (0 < r1) && decide (r1 < s.range) && validTrace (s.put sym (fun _ => r1)) rest

/-- The stop-bit search of `encoder::finish`: for
`stop_bit = fixed_one >> 1` down to `1`, compute
`x = (low | stop_bit) & ~(stop_bit - 1)` and return the first `x` with
`stop_bit < range && low <= x && x < low + range` (uint64 compare), or
`low` unchanged when no stop bit qualifies.  The argument `k` counts the
remaining stop bits; `finish` starts it at 63 (`stop_bit = 2^62`). -/

def stopSearchLow (low range : Nat) : Nat → Nat
  | 0 => low
  | k + 1 =>
    let sb := 2 ^ k
    let x := Nat.land (Nat.lor low sb) (two64 - sb)
    if sb < range ∧ low ≤ x ∧ x < (low + range) % two64 then x
    else stopSearchLow low range k

/-- The loop `while (low != 0) renormalize_and_emit_digit<OutputDigit>();`
of `finish`, with explicit fuel (at most 9 iterations are ever possible:
one carry resolution plus eight digit shifts of a 64-bit `low`). -/

def finishLoopF : Nat → EncState → EncState
  | 0, s => s
  | fuel + 1, s => if s.low ≠ 0 then finishLoopF fuel (renormalize s) else s

/-- `encoder::finish()`: stop-bit search, then `range = 1`, then flush
`low` to zero emitting output digits. -/

def EncState.finish (s : EncState) : EncState :=
  let s := { s with low := stopSearchLow s.low s.range 63 }
  let s := { s with range := 1 }
  finishLoopF 16 s

/-- A concrete sequence of five valid `put` calls that drives the overflow
queue of the `uint64_t`/`uint8_t` encoder to 12 deferred digits: each entry
is the symbol together with the value its probability function returns. -/

def c2trace : List (Bool × Nat) :=
  [(true, 2 ^ 9),
   (false, 2 ^ 57 - 2 ^ 55 - 2 ^ 9),
   (true, 2 ^ 10),
   (true, 2 ^ 57 + 2 ^ 9),
   (false, 2 ^ 57 + 2 ^ 9 - 2 ^ 10)]

/-! ### The h264 model (`h264_model` in `recode.cpp`)

C++ arrays indexed by macroblock coordinates or coefficient index are
modelled as total functions; the `std::map<model_key, estimator>` is a
total function whose value at untouched keys is the C++ default-constructed
`estimator {pos = 1, neg = 1}`.  Context pointers (`&bypass_context`,
`&terminate_context`, `&significance_context`, the `static int fake_context`
of the EOB case, and the external CABAC state pointers) are modelled as
`Nat` identifiers; the four internal contexts get the distinct ids 0-3. -/

/-- The `CodingType` enum of the libavcodec-hooks interface, as used by
`h264_model`. -/

inductive CodingType where
  | PIP_UNKNOWN
  | PIP_SIGNIFICANCE_MAP
  | PIP_SIGNIFICANCE_EOB
  | PIP_SIGNIFICANCE_NZ
  | PIP_RESIDUALS
  | PIP_UNREACHABLE
deriving DecidableEq

/-- `model_key = std::tuple<const void*, int, int>`; the context pointer is
a `Nat` identifier. -/

def MKey : Type := Nat × Nat × Nat

instance : DecidableEq MKey := by
  unfold MKey
  infer_instance

/-- `struct estimator { int pos = 1, neg = 1; }`. -/

structure estimator where
  pos : Nat
  neg : Nat
deriving DecidableEq

/-- Identifier of `h264_model::bypass_context`. -/

def bypass_context : Nat := 0

/-- Identifier of `h264_model::terminate_context`. -/

def terminate_context : Nat := 1

/-- Identifier of `h264_model::significance_context`. -/

def significance_context : Nat := 2

/-- Identifier of the `static int fake_context` in the
`PIP_SIGNIFICANCE_EOB` case of `get_model_key`. -/

def fake_context : Nat := 3

/-- Row 0 of `sig_coeff_flag_offset_8x8[2][63]` (the row used by
`get_model_key`). -/

def sig_coeff_flag_offset_8x8_row0 : List Nat :=
  [0, 1, 2, 3, 4, 5, 5, 4, 4, 3, 3, 4, 4, 4, 5, 5,
   4, 4, 4, 4, 3, 3, 6, 7, 7, 7, 8, 9, 10, 9, 8, 7,
   7, 6, 11, 12, 13, 11, 6, 7, 8, 9, 14, 10, 9, 8, 6, 11,
   12, 13, 11, 6, 9, 14, 10, 9, 11, 12, 13, 11, 14, 10, 12]

/-- Row 1 of `sig_coeff_flag_offset_8x8[2][63]` (carried for completeness;
the source only reads row 0). -/

def sig_coeff_flag_offset_8x8_row1 : List Nat :=
  [0, 1, 1, 2, 2, 3, 3, 4, 5, 6, 7, 7, 7, 8, 4, 5,
   6, 9, 10, 10, 8, 11, 12, 11, 9, 9, 10, 10, 8, 11, 12, 11,
   9, 9, 10, 10, 8, 11, 12, 11, 9, 9, 10, 10, 8, 13, 13, 9,
   9, 10, 10, 8, 13, 13, 9, 9, 10, 10, 14, 14, 14, 14, 14]

/-- `cat_lookup[14] = {105+0, 105+15, 105+29, 105+44, 105+47, 402, 484+0,
484+15, 484+29, 660, 528+0, 528+15, 528+29, 718}`. -/

def cat_lookup : List Nat :=
  [105, 120, 134, 149, 152, 402, 484, 499, 513, 660, 528, 543, 557, 718]

/-- `sig_coeff_offset_dc[7]`. -/

def sig_coeff_offset_dc : List Nat := [0, 0, 1, 1, 2, 2, 2]

/-- The slice of `BlockMeta` the model reads and writes on the claims'
paths: `num_nonzeros[scan8_index]`, `is_8x8` and `coded`. -/

structure BlockMeta where
  num_nonzeros : Nat → Nat
  is_8x8 : Bool
  coded : Bool

/-- One `FrameBuffer`: per-macroblock residual array (flattened index
`scan8_index * 16 + zigzag_index`, as in the source) and metadata. -/

structure FrameBuf where
  blockResidual : Nat → Nat → Nat → Int
  meta : Nat → Nat → BlockMeta

/-- The state of `h264_model` used on the claims' paths: the walk state
(`coding_type`, `mb_coord`, `nonzeros_observed`, current sub-block
category/size/DC/chroma422), the two frame buffers with the current-frame
flag, and the estimator map. -/

structure H264Model where
  coding_type : CodingType
  mb_x : Nat
  mb_y : Nat
  scan8_index : Nat
  zigzag_index : Nat
  nonzeros_observed : Nat
  sub_mb_cat : Nat
  sub_mb_size : Nat
  sub_mb_is_dc : Nat
  sub_mb_chroma422 : Nat
  cur_frame : Bool
  frames : Bool → FrameBuf
  est : MKey → estimator

/-- Write `frames[cur_frame].at(mb_x, mb_y).residual[idx] = v`. -/

def H264Model.setCurResidual (m : H264Model) (idx : Nat) (v : Int) : H264Model :=
  { m with frames := fun f =>
      if f = m.cur_frame then
        { m.frames f with blockResidual := fun x y i =>
            if x = m.mb_x ∧ y = m.mb_y ∧ i = idx then v
            else (m.frames f).blockResidual x y i }
      else m.frames f }

/-- `h264_model::get_model_key(context)`.  The neighbour probes of the
`PIP_SIGNIFICANCE_MAP` case are read-only and their results are discarded
by the source (`(void)` casts feeding only the debug log), so they do not
appear here; the returned key is computed exactly as in the source. -/

def get_model_key (m : H264Model) (context : Nat) : MKey :=
  match m.coding_type with
  | CodingType.PIP_SIGNIFICANCE_NZ => (context, 0, 0)
  | CodingType.PIP_UNKNOWN => (context, 0, 0)
  | CodingType.PIP_UNREACHABLE => (context, 0, 0)
  | CodingType.PIP_RESIDUALS => (context, 0, 0)
  | CodingType.PIP_SIGNIFICANCE_MAP =>
    let zigzag_offset :=
      if m.sub_mb_is_dc ≠ 0 ∧ m.sub_mb_chroma422 ≠ 0 then
        sig_coeff_offset_dc.getD m.zigzag_index 0
      else if 32 < m.sub_mb_size then
        sig_coeff_flag_offset_8x8_row0.getD m.zigzag_index 0
      else m.zigzag_index
    let num_nonzeros := ((m.frames m.cur_frame).meta m.mb_x m.mb_y).num_nonzeros m.scan8_index
    (significance_context, 64 * num_nonzeros + m.nonzeros_observed,
     m.sub_mb_is_dc + zigzag_offset * 2 + 16 * 2 * cat_lookup.getD m.sub_mb_cat 0)
  | CodingType.PIP_SIGNIFICANCE_EOB =>
    let num_nonzeros := ((m.frames m.cur_frame).meta m.mb_x m.mb_y).num_nonzeros m.scan8_index
    (fake_context, if num_nonzeros = m.nonzeros_observed then 1 else 0, 0)

/-- `h264_model::probability_for_model_key(range, key)`:
`(range / (pos + neg)) * pos` in `uint64_t` arithmetic, on the estimator
entry at `key`. -/

def h264_probability_for_model_key (m : H264Model) (range : Nat) (key : MKey) : Nat :=
  let e := m.est key
  range / (e.pos + e.neg) * e.pos % two64

/-- `h264_model::probability_for_state(range, context)`. -/

def h264_probability_for_state (m : H264Model) (range : Nat) (context : Nat) : Nat :=
  h264_probability_for_model_key m range (get_model_key m context)

/-- `h264_model::update_state_tracking(symbol)`: the walk state machine of
the significance map. -/

def update_state_tracking (symbol : Nat) (m : H264Model) : H264Model :=
  match m.coding_type with
  | CodingType.PIP_SIGNIFICANCE_NZ => m
  | CodingType.PIP_SIGNIFICANCE_MAP =>
    let m1 := m.setCurResidual (m.scan8_index * 16 + m.zigzag_index) (Int.ofNat symbol)
    let m1 := { m1 with nonzeros_observed := m1.nonzeros_observed + symbol }
    if m1.zigzag_index + 1 = m1.sub_mb_size then
      { m1 with coding_type := CodingType.PIP_UNREACHABLE, zigzag_index := 0 }
    else if symbol ≠ 0 then
      { m1 with coding_type := CodingType.PIP_SIGNIFICANCE_EOB }
    else
      let m2 := { m1 with zigzag_index := m1.zigzag_index + 1 }
      if m2.zigzag_index + 1 = m2.sub_mb_size then
        -- if we were a zero and we haven't eob'd then the next and last must be a one
        let m3 := m2.setCurResidual (m2.scan8_index * 16 + m2.zigzag_index) 1
        { m3 with nonzeros_observed := m3.nonzeros_observed + 1,
                  coding_type := CodingType.PIP_UNREACHABLE, zigzag_index := 0 }
      else m2
  | CodingType.PIP_SIGNIFICANCE_EOB =>
    if symbol ≠ 0 then
      { m with zigzag_index := 0, coding_type := CodingType.PIP_UNREACHABLE }
    else if m.zigzag_index + 2 = m.sub_mb_size then
      let m1 := m.setCurResidual (m.scan8_index * 16 + m.zigzag_index + 1) 1
      { m1 with coding_type := CodingType.PIP_UNREACHABLE }
    else
      { m with coding_type := CodingType.PIP_SIGNIFICANCE_MAP,
               zigzag_index := m.zigzag_index + 1 }
  | CodingType.PIP_RESIDUALS => m
  | CodingType.PIP_UNKNOWN => m
  | CodingType.PIP_UNREACHABLE => m

/-- The estimator update inside `update_state_for_model_key`: increment
`pos` or `neg`, then halve both (rounded up) when the cap — `0x60` in
general, `0x50` inside the significance map — is exceeded. -/

def update_estimator (ct : CodingType) (symbol : Nat) (e : estimator) : estimator :=
  let e := if symbol ≠ 0 then { e with pos := e.pos + 1 } else { e with neg := e.neg + 1 }
  if (ct ≠ CodingType.PIP_SIGNIFICANCE_MAP ∧ 0x60 < e.pos + e.neg)
      ∨ (ct = CodingType.PIP_SIGNIFICANCE_MAP ∧ 0x50 < e.pos + e.neg) then
    { pos := (e.pos + 1) / 2, neg := (e.neg + 1) / 2 }
  else e

/-- `h264_model::update_state_for_model_key(symbol, key)`: update the
estimator entry at `key`, then advance the walk state machine.  (The
source's `assert` on the EOB symbol is a debug no-op and has no effect on
the state.) -/

def update_state_for_model_key (symbol : Nat) (key : MKey) (m : H264Model) : H264Model :=
  let m1 := { m with est := fun k =>
      if k = key then update_estimator m.coding_type symbol (m.est k) else m.est k }
  update_state_tracking symbol m1

/-- `h264_model::update_state(symbol, context)`. -/

def update_state (symbol context : Nat) (m : H264Model) : H264Model :=
  update_state_for_model_key symbol (get_model_key m context) m

/-- A default model state (all-zero walk state, default estimators), used
to instantiate witnesses. -/

def mkModel : H264Model :=
  { coding_type := CodingType.PIP_UNKNOWN, mb_x := 0, mb_y := 0, scan8_index := 0,
    zigzag_index := 0, nonzeros_observed := 0, sub_mb_cat := 0, sub_mb_size := 0,
    sub_mb_is_dc := 0, sub_mb_chroma422 := 0, cur_frame := false,
    frames := fun _ => ⟨fun _ _ _ => 0, fun _ _ => ⟨fun _ => 0, false, false⟩⟩,
    est := fun _ => ⟨1, 1⟩ }

/-! ### The per-symbol drivers -/

/-- `h264_symbol::execute(encoder, model, out, encoder_out)` on the compress
path: submit the symbol to the arithmetic encoder unless the coding type is
`PIP_SIGNIFICANCE_EOB`, update the model, and flush the encoder when the
terminate symbol fires.  (The billing counters and the envelope write
`out->set_cabac(...)` are omitted: they do not feed back into the coder or
model state.) -/

def h264_symbol_execute (symbol context : Nat) (m : H264Model) (enc : EncState) :
    H264Model × EncState :=
  let enc1 := if m.coding_type ≠ CodingType.PIP_SIGNIFICANCE_EOB
              then enc.put (symbol ≠ 0) (fun range => h264_probability_for_state m range context)
              else enc
  let m1 := update_state symbol context m
  let enc2 := if context = terminate_context ∧ symbol ≠ 0 then enc1.finish else enc1
  (m1, enc2)

/-- The state of `decompressor::cabac_decoder` relevant to the recoded
stream: the model, the arithmetic decoder (abstract state of type `δ`;
`arithmetic_code::decoder` is instantiated once per block), and the
sequence of symbols fed to the bit-exact CABAC re-encoder
(`cabac_encoder.put`), which this embedding keeps abstract as a list of
`(symbol, context)` pairs. -/

structure DecompCabac (δ : Type) where
  model : H264Model
  dec : δ
  cabacPuts : List (Nat × Nat)

/-- `decompressor::cabac_decoder::get(state)`: when the model's coding type
is `PIP_SIGNIFICANCE_EOB` the symbol is `std::get<1>(get_model_key(state))`
and nothing is read from the arithmetic decoder; otherwise the symbol is
pulled from the decoder under the model's probability.  Either way the
symbol is fed to the CABAC re-encoder and the model state advances.
`dget` is the arithmetic decoder's `get`, abstract over its state `δ`. -/

def decomp_get {δ : Type} (dget : δ → (Nat → Nat) → Nat × δ)
    (s : DecompCabac δ) (context : Nat) : Nat × DecompCabac δ :=
  if s.model.coding_type = CodingType.PIP_SIGNIFICANCE_EOB then
    let symbol := (get_model_key s.model context).2.1
    (symbol, { s with cabacPuts := s.cabacPuts ++ [(symbol, context)],
                      model := update_state symbol context s.model })
  else
    let r := dget s.dec (fun range => h264_probability_for_state s.model range context)
    (r.1, { s with dec := r.2,
                   cabacPuts := s.cabacPuts ++ [(r.1, context)],
                   model := update_state r.1 context s.model })

/-- Concrete model state for the `C6_sigmap_forced_last` witness: the walk
is in the significance map at `zigzag_index = 2` of a 4-coefficient
sub-block. -/

def mC6 : H264Model :=
  { mkModel with coding_type := CodingType.PIP_SIGNIFICANCE_MAP,
                 zigzag_index := 2, sub_mb_size := 4, scan8_index := 1 }

/-- Trivial arithmetic-decoder stub for the `C5_eob_zero_bits` witness. -/

def dgetTriv : List Nat → (Nat → Nat) → Nat × List Nat := fun d _ => (0, d)

/-- Concrete decompressor state for the `C5_eob_zero_bits` witness. -/

def sC5 : DecompCabac (List Nat) :=
  ⟨{ mkModel with coding_type := CodingType.PIP_SIGNIFICANCE_EOB }, [], []⟩

/-! ### The decompressor's boundary corrections and splice helpers -/

/-- `decompressor::cabac_decoder::finish()`: omit the trailing byte when it
is only a stop bit (`0x80`).  (`cabac_out.back()` on an empty output is
undefined in the source; the embedding leaves an empty output unchanged,
and the theorems only visit non-empty outputs.) -/

def finish_strip (cabac_out : List Nat) : List Nat :=
  if cabac_out.getLast? = some 0x80 then cabac_out.dropLast else cabac_out

/-- The length-parity / last-byte correction applied by
`decompressor::run` to each block carrying `length_parity` and
`last_byte`: if the reconstructed length has the wrong parity append one
extra byte, else overwrite the final byte (x264 padding correction). -/

def parity_correct (length_parity last_byte : Nat) (out_bytes : List Nat) : List Nat :=
  if length_parity ≠ out_bytes.length % 2 then out_bytes ++ [last_byte]
  else out_bytes.dropLast ++ [last_byte]

/-- The digit loop of `decompressor::next_surrogate_marker()`: byte `i` is
`n % 255 + 1`, then `n /= 255`; `k` counts the remaining bytes.  (The
string starts as `SURROGATE_MARKER_BYTES` copies of `'\x01'`, all of which
the loop overwrites in order.) -/

def markerBytes : Nat → Nat → List Nat
  | 0, _ => []
  | k + 1, n => (n % 255 + 1) :: markerBytes k (n / 255)

/-- `decompressor::next_surrogate_marker()` as a function of the sequence
number it consumes: the member counter `surrogate_marker_sequence_number`
starts at 1 and post-increments, so the `j`-th call within one
decompressor uses `n = j`. -/

def next_surrogate_marker (n : Nat) : List Nat := markerBytes 8 n

/-- Base-255 value of a marker (inverse of the digit loop). -/

def markerVal : List Nat → Nat
  | [] => 0
  | b :: r => (b - 1) + 255 * markerVal r

/-- `decompressor::make_surrogate_block(surrogate_marker, size)`: throws
when `size` is smaller than the marker, else the marker resized to `size`
padded with the NAL-encoding-safe byte `'X' = 0x58`. -/

def make_surrogate_block (surrogate_marker : List Nat) (size : Nat) :
    Except String (List Nat) :=
  if size < surrogate_marker.length then
    Except.error ("Invalid coded block size for surrogate: " ++ toString size)
  else
    Except.ok (surrogate_marker ++ List.replicate (size - surrogate_marker.length) 0x58)

/-! ### Claim C1: byte-exact roundtrip of the splice/envelope layer

The external H.264 decoder is out of scope of the core (`decode_video` is
libavcodec); its effect on the splice layer is the sequence of
`init_cabac_decoder` events it fires, each classified by
`find_next_coded_block_and_emit_literal` as a matched CABAC span (a span
`[start, start + size)` of the source found inside the already-handed-out
window, `size ≥ SURROGATE_MARKER_BYTES`) or as a skip-coded span.  "The
compressor accepts the file" is modelled as well-formedness of that event
sequence; "the recoding is byte-exact" (the AC + model + CABAC-emit
roundtrip per span, claims C2-C6 cover its pieces) is the hypothesis that
each CABAC block's reconstruction equals the span it restates. -/

/-- One `init_cabac_decoder` event as classified by the compressor. -/

inductive SpliceEvent where
  | cabacSpan (start size : Nat)
  | skipSpan (size : Nat)

/-- An envelope block (`Recoded::Block`): exactly one of literal,
CABAC-recoded (`size`, `length_parity = size & 1`, `last_byte` when
`size > 1`; the arithmetic-coded payload is abstracted by the source span
it restates), or skip-coded (whose bytes travel in an adjacent literal). -/

inductive RBlock where
  | literal (bytes : List Nat)
  | cabac (size length_parity : Nat) (last_byte : Option Nat) (span : List Nat)
  | skipCoded (size : Nat)

/-- The byte range `[a, b)` of the source file. -/

def fileSlice (F : List Nat) (a b : Nat) : List Nat := (F.drop a).take (b - a)

/-- The block sequence `compressor::run` emits:
`find_next_coded_block_and_emit_literal` emits the gap literal
`[prev_coded_block_end, start)` and a CABAC block for `[start, start+size)`
advancing `prev_coded_block_end`, or emits a skip-coded block leaving
`prev_coded_block_end` alone; `run` flushes the final literal
`[prev_coded_block_end, size)`. -/

def compressBlocks (F : List Nat) : Nat → List SpliceEvent → List RBlock
  | pce, [] => [RBlock.literal (fileSlice F pce F.length)]
  | pce, SpliceEvent.cabacSpan start size :: evs =>
      RBlock.literal (fileSlice F pce start)
        :: RBlock.cabac size (size % 2)
             (if 1 < size then (fileSlice F start (start + size)).getLast? else none)
             (fileSlice F start (start + size))
        :: compressBlocks F (start + size) evs
  | pce, SpliceEvent.skipSpan size :: evs =>
      RBlock.skipCoded size :: compressBlocks F pce evs

/-- Well-formedness of the event sequence (the shape
`find_next_coded_block_and_emit_literal` guarantees whenever it opens a
CABAC block): the match lies at or after `prev_coded_block_end`, inside
the file, and `size ≥ SURROGATE_MARKER_BYTES = 8`. -/

def wfEvents (F : List Nat) : Nat → List SpliceEvent → Prop
  | _, [] => True
  | pce, SpliceEvent.cabacSpan start size :: evs =>
      pce ≤ start ∧ start + size ≤ F.length ∧ 8 ≤ size ∧ wfEvents F (start + size) evs
  | pce, SpliceEvent.skipSpan _ :: evs => wfEvents F pce evs

/-- The original-file bytes a block accounts for: a literal carries its
bytes, a CABAC block stands for its source span, a skip-coded block
carries nothing of its own. -/

def blockOriginal : RBlock → List Nat
  | RBlock.literal bs => bs
  | RBlock.cabac _ _ _ span => span
  | RBlock.skipCoded _ => []

/-- Concatenation of the original bytes of all blocks, in order. -/

def envelopeOriginal : List RBlock → List Nat
  | [] => []
  | b :: r => blockOriginal b ++ envelopeOriginal r

/-- The output concatenation of `decompressor::run` (before the per-block
parity correction, which claim C4 covers): literal blocks carry their
bytes, skip-coded blocks contribute nothing (their `out_bytes` stays
empty), and the CABAC block at index `i` contributes the bytes `reconAt i`
its `cabac_decoder` reconstructed. -/

def decompOut (reconAt : Nat → List Nat) : Nat → List RBlock → List Nat
  | _, [] => []
  | i, RBlock.literal bs :: r => bs ++ decompOut reconAt (i + 1) r
  | i, RBlock.cabac _ _ _ _ :: r => reconAt i ++ decompOut reconAt (i + 1) r
  | i, RBlock.skipCoded _ :: r => decompOut reconAt (i + 1) r

/-- The final comparison of `roundtrip`: 0 when the decompressed bytes
equal the original file, 1 otherwise. -/

def roundtripResult (original decompressed : List Nat) : Nat :=
  if original = decompressed then 0 else 1

/-- The reconstruction map used by the `C1_envelope_roundtrip` witness:
read each block's span off the envelope itself. -/

def reconExact (blocks : List RBlock) : Nat → List Nat := fun i =>
  match blocks[i]? with
  | some (RBlock.cabac _ _ _ span) => span
  | _ => []

/-- Source file for the `C1_envelope_roundtrip` witness. -/

def fC1 : List Nat := [10, 11, 12, 13, 14, 15, 16, 17, 18, 19, 20, 21]

/-- Splice events for the `C1_envelope_roundtrip` witness: one skip-coded
span, then a matched CABAC span `[2, 10)`. -/

def evsC1 : List SpliceEvent := [SpliceEvent.skipSpan 3, SpliceEvent.cabacSpan 2 8]

/-! ### Basic facts about the encoder loops -/

/-- `renormalize` always multiplies `range` by the digit base (mod `2^64`);
neither the carry cascade nor the emit/defer choice touches `range`. -/

theorem renormalize_range (s : EncState) :
    (renormalize s).range = s.range * digit_base % two64 := by
  unfold renormalize
  dsimp only
  split <;> split <;> rfl

/-- The carry cascade preserves the length of the overflow queue. -/

theorem incCarryRev_length (l : List Nat) : (incCarryRev l).length = l.length := by
  induction l with
  | nil => rfl
  | cons d ds ih =>
    unfold incCarryRev
    split <;> simp [ih]

/-- `incOverflow` preserves the length of the overflow queue. -/

theorem incOverflow_length (l : List Nat) : (incOverflow l).length = l.length := by
  simp [incOverflow, incCarryRev_length]

/-- One renormalization step grows the overflow queue by at most one digit
(the defer branch pushes one digit; the emit branch flushes the queue). -/

theorem renormalize_overflow_length (s : EncState) :
    (renormalize s).overflow.length ≤ s.overflow.length + 1 := by
  unfold renormalize
  dsimp only
  split <;> split <;> simp [incOverflow_length]

/-- The renormalization loop of `put` runs at most `n` iterations when
`range * 256^n` already reaches `min_range`, so it appends at most `n`
digits to the overflow queue. -/

theorem putLoopF_overflow_length (n : Nat) :
    ∀ (fuel : Nat) (s : EncState), min_range ≤ s.range * 256 ^ n →
      (putLoopF fuel s).overflow.length ≤ s.overflow.length + n := by
  induction n with
  | zero =>
    intro fuel s h
    simp only [pow_zero, mul_one] at h
    cases fuel with
    | zero => simp [putLoopF]
    | succ fuel =>
      unfold putLoopF
      have : ¬ s.range < min_range := not_lt.mpr h
      simp [this]
  | succ m ih =>
    intro fuel s h
    cases fuel with
    | zero => simp [putLoopF]
    | succ fuel =>
      unfold putLoopF
      split
      · rename_i hguard
        have hmul : (renormalize s).range = s.range * 256 := by
          rw [renormalize_range]
          have hlt : s.range * digit_base < two64 := by
            have : s.range < min_range := hguard
            unfold min_range fixed_one digit_base two64 at *
            omega
          simpa [digit_base] using Nat.mod_eq_of_lt hlt
        have hrec : min_range ≤ (renormalize s).range * 256 ^ m := by
          rw [hmul, mul_assoc]
          calc min_range ≤ s.range * 256 ^ (m + 1) := h
            _ = s.range * (256 * 256 ^ m) := by ring
        have := ih fuel (renormalize s) hrec
        have hlen := renormalize_overflow_length s
        omega
      · omega

/-- The renormalization loop keeps `range` inside the `uint64_t` domain. -/

theorem putLoopF_range_lt (fuel : Nat) (s : EncState) (h : s.range < two64) :
    (putLoopF fuel s).range < two64 := by
  induction fuel generalizing s with
  | zero => simpa [putLoopF] using h
  | succ fuel ih =>
    unfold putLoopF
    split
    · exact ih (renormalize s) (by rw [renormalize_range]; exact Nat.mod_lt _ (by decide))
    · exact h

/-- A single valid `put` (probability value strictly between 0 and `range`)
appends at most 7 digits to the overflow queue and keeps `range < 2^64`:
both split outcomes leave `range ≥ 1`, and `1 * 256^7 = 2^56 ≥ min_range`. -/

theorem put_overflow_length (s : EncState) (sym : Bool) (r1 : Nat)
    (h0 : 0 < r1) (h1 : r1 < s.range) (hr : s.range < two64) :
    (s.put sym (fun _ => r1)).overflow.length ≤ s.overflow.length + 7 ∧
      (s.put sym (fun _ => r1)).range < two64 := by
  unfold EncState.put
  have hr1 : r1 % two64 = r1 := Nat.mod_eq_of_lt (lt_trans h1 hr)
  have hr0 : (s.range + (two64 - r1 % two64)) % two64 = s.range - r1 := by
    rw [hr1]
    have h2 : s.range + (two64 - r1) = (s.range - r1) + two64 := by omega
    rw [h2, Nat.add_mod_right]
    exact Nat.mod_eq_of_lt (by omega)
  split
  · constructor
    · refine putLoopF_overflow_length 7 64 _ ?_
      simp only [hr1]
      have : (1 : Nat) * 256 ^ 7 ≤ r1 * 256 ^ 7 := Nat.mul_le_mul_right _ h0
      calc min_range ≤ 1 * 256 ^ 7 := by decide
        _ ≤ r1 * 256 ^ 7 := this
    · exact putLoopF_range_lt 64 _ (by simpa [hr1] using lt_trans h1 hr)
  · constructor
    · refine putLoopF_overflow_length 7 64 _ ?_
      simp only [hr0]
      have hpos : 1 ≤ s.range - r1 := by omega
      have : (1 : Nat) * 256 ^ 7 ≤ (s.range - r1) * 256 ^ 7 := Nat.mul_le_mul_right _ hpos
      calc min_range ≤ 1 * 256 ^ 7 := by decide
        _ ≤ (s.range - r1) * 256 ^ 7 := this
    · exact putLoopF_range_lt 64 _ (by simp only [hr0]; omega)

/-! ### Claim C2: the overflow queue bound -/

/-- C2, counterexample: after the five valid `put` calls of `c2trace`
(each probability value `r1` satisfies `0 < r1 < range` at its call), the
overflow queue holds 12 > 8 deferred digits, refuting the claimed bound
`ceil(log_256(fixed_one)) = 8`: the interval can be driven to straddle a
digit boundary across many `put` calls, deferring a digit on every
renormalization. -/

theorem C2_overflow_counterexample :
    validTrace initEnc c2trace = true ∧
      ¬ (runPuts initEnc c2trace).overflow.length ≤ 8 := by
  constructor
  · decide
  · decide

/-- C2, amended: the overflow queue of deferred digits grows by at most
`ceil(log_256(min_range)) = 7` digits per `put` call, so after any sequence
of valid `put` calls its length is at most 7 times the number of calls; it
is not bounded by `ceil(log_256(fixed_one)) = 8` uniformly across calls. -/

theorem C2_overflow_amended (trace : List (Bool × Nat)) :
    ∀ (s : EncState), s.range < two64 → validTrace s trace = true →
      (runPuts s trace).overflow.length ≤ s.overflow.length + 7 * trace.length := by
  induction trace with
  | nil => intro s _ _; simp [runPuts]
  | cons hd rest ih =>
    intro s hr hv
    obtain ⟨sym, r1⟩ := hd
    unfold validTrace at hv
    simp only [Bool.and_eq_true, decide_eq_true_eq] at hv
    obtain ⟨⟨h0, h1⟩, hrest⟩ := hv
    have hput := put_overflow_length s sym r1 h0 h1 hr
    have := ih (s.put sym (fun _ => r1)) hput.2 hrest
    simp only [runPuts, List.length_cons]
    omega

/-- Witness for `C2_overflow_amended` at a concrete one-put trace. -/

theorem C2_overflow_amended_witness :
    initEnc.range < two64 ∧ validTrace initEnc [(true, 1)] = true ∧
      (runPuts initEnc [(true, 1)]).overflow.length ≤ initEnc.overflow.length + 7 * 1 := by
  refine ⟨by decide, by decide, ?_⟩
  exact C2_overflow_amended [(true, 1)] initEnc (by decide) (by decide)

/-! ### Claim C9: idempotence of `finish` -/

/-- C9, counterexample: `finish` is not idempotent.  On a fresh encoder the
first `finish` emits the single digit `0x80` and leaves `range = 256`; the
second `finish` finds the stop bit `128 < range`, sets `low = 128`, and
flushes seven further digits, so the two-finish output differs from the
one-finish output. -/

theorem C9_finish_counterexample : initEnc.finish.finish ≠ initEnc.finish := by
  decide

/-- `renormalize` always leaves `range` divisible by 256
(`range *= digit_base`, taken modulo `2^64 = 256 * 2^56`). -/

theorem renormalize_range_dvd (s : EncState) : 256 ∣ (renormalize s).range := by
  rw [renormalize_range]
  have h256 : two64 = 256 * 2 ^ 56 := by decide
  have hd : s.range * digit_base = 256 * s.range := by
    show s.range * 256 = 256 * s.range
    ring
  rw [hd, h256, Nat.mul_mod_mul_left]
  exact Dvd.intro _ rfl

/-- The flush loop of `finish` keeps `range` divisible by 256 once it is. -/

theorem finishLoopF_dvd (fuel : Nat) (s : EncState) (h : 256 ∣ s.range) :
    256 ∣ (finishLoopF fuel s).range := by
  induction fuel generalizing s with
  | zero => simpa [finishLoopF] using h
  | succ fuel ih =>
    unfold finishLoopF
    split
    · exact ih (renormalize s) (renormalize_range_dvd s)
    · exact h

/-- The flush loop is the identity on states with `low = 0`. -/

theorem finishLoopF_low_zero (fuel : Nat) (s : EncState) (h : s.low = 0) :
    finishLoopF fuel s = s := by
  cases fuel <;> unfold finishLoopF <;> simp [h]

/-- One unrolling of the flush loop when its guard holds. -/

theorem finishLoopF_succ_of_ne (fuel : Nat) (s : EncState) (h : s.low ≠ 0) :
    finishLoopF (fuel + 1) s = finishLoopF fuel (renormalize s) := by
  have e : finishLoopF (fuel + 1) s
      = if s.low ≠ 0 then finishLoopF fuel (renormalize s) else s := rfl
  rw [e, if_pos h]

/-- The stop-bit search finds nothing when `range ≤ 1` (no `stop_bit < 1`). -/

theorem stopSearchLow_range_le_one (low range : Nat) (h : range ≤ 1) :
    ∀ k, stopSearchLow low range k = low := by
  intro k
  induction k with
  | zero => rfl
  | succ m ih =>
    unfold stopSearchLow
    have hsb : ¬ (2 ^ m < range) := by
      have : 1 ≤ 2 ^ m := Nat.one_le_two_pow
      omega
    simp only [hsb, false_and, if_false]
    exact ih

/-- C9, amended: calling `finish` twice is equivalent to calling it once
precisely in the case where the first `finish`'s flush loop ran no
iteration, i.e. left `range = 1`; then `low` is already 0, the second
stop-bit search finds no `stop_bit < range = 1`, and the second flush loop
body never runs, so no digit is emitted and no state changes.  (In general
the first `finish` multiplies `range` by 256 per emitted digit, and a
second `finish` emits further digits, as `C9_finish_counterexample`
shows.) -/

theorem C9_finish_amended (s : EncState) (h : s.finish.range = 1) :
    s.finish.finish = s.finish := by
  obtain ⟨lo, ra, ov, ou⟩ := s
  have hfin0 : (⟨lo, ra, ov, ou⟩ : EncState).finish
      = finishLoopF 16 ⟨stopSearchLow lo ra 63, 1, ov, ou⟩ := rfl
  rw [hfin0] at h ⊢
  by_cases hlow : stopSearchLow lo ra 63 = 0
  · rw [hlow] at h ⊢
    rw [finishLoopF_low_zero 16 _ rfl]
    unfold EncState.finish
    dsimp only
    rw [stopSearchLow_range_le_one 0 1 (le_refl 1) 63]
    exact finishLoopF_low_zero 16 _ rfl
  · exfalso
    have h1 : finishLoopF 16 (⟨stopSearchLow lo ra 63, 1, ov, ou⟩ : EncState)
        = finishLoopF 15 (renormalize ⟨stopSearchLow lo ra 63, 1, ov, ou⟩) :=
      finishLoopF_succ_of_ne 15 _ hlow
    rw [h1] at h
    have hdvd := finishLoopF_dvd 15 _ (renormalize_range_dvd ⟨stopSearchLow lo ra 63, 1, ov, ou⟩)
    rw [h] at hdvd
    omega

/-- Witness for `C9_finish_amended`: a state on which the first `finish`
emits nothing (`low = 0`, `range = 1`) and the second is a no-op. -/

theorem C9_finish_amended_witness :
    (⟨0, 1, [], []⟩ : EncState).finish.range = 1 ∧
      (⟨0, 1, [], []⟩ : EncState).finish.finish = (⟨0, 1, [], []⟩ : EncState).finish := by
  refine ⟨by decide, ?_⟩
  exact C9_finish_amended ⟨0, 1, [], []⟩ (by decide)

/-! ### Claim C10: `finish` on a fresh encoder -/

/-- C10: on a freshly constructed encoder (`low = 0`, `range = fixed_one`,
no `put` calls), the stop-bit search of `finish` sets `low = fixed_one/2`
and the flush loop then emits exactly one output digit, of value
`digit_base/2 = 0x80`; the compressed form of the empty symbol sequence
is one digit, never empty. -/

theorem C10_finish_fresh :
    stopSearchLow initEnc.low initEnc.range 63 = fixed_one / 2 ∧
      initEnc.finish.out = [digit_base / 2] ∧
      initEnc.finish.out.length = 1 := by
  refine ⟨by decide, by decide, by decide⟩

/-! ### Claim C3: the estimator never produces a degenerate probability -/

/-- The walk state machine never touches the estimator map. -/

theorem update_state_tracking_est (symbol : Nat) (m : H264Model) :
    (update_state_tracking symbol m).est = m.est := by
  obtain ⟨ct, mx, my, s8, zz, nz, cat, sz, dc, ch, cf, fr, est⟩ := m
  cases ct <;> dsimp only [update_state_tracking, H264Model.setCurResidual] <;>
    (repeat' split) <;> rfl

/-- `update_state_for_model_key` rewrites the estimator entry at its key by
`update_estimator` (under the coding type current at the call). -/

theorem update_state_for_model_key_est (symbol : Nat) (key : MKey) (m : H264Model) :
    (update_state_for_model_key symbol key m).est key
      = update_estimator m.coding_type symbol (m.est key) := by
  unfold update_state_for_model_key
  rw [update_state_tracking_est]
  simp

/-- Laplace-estimator update: both counts stay at least 1 and the capped
total stays at most `0x60` (`0x50` inside the significance map). -/

theorem update_estimator_bounds (ct : CodingType) (symbol : Nat) (e : estimator)
    (hp : 1 ≤ e.pos) (hn : 1 ≤ e.neg) (hcap : e.pos + e.neg ≤ 0x60) :
    1 ≤ (update_estimator ct symbol e).pos ∧ 1 ≤ (update_estimator ct symbol e).neg ∧
      (update_estimator ct symbol e).pos + (update_estimator ct symbol e).neg ≤ 0x60 ∧
      (ct = CodingType.PIP_SIGNIFICANCE_MAP →
        (update_estimator ct symbol e).pos + (update_estimator ct symbol e).neg ≤ 0x50) := by
  obtain ⟨p, n⟩ := e
  dsimp only at hp hn hcap
  by_cases hct : ct = CodingType.PIP_SIGNIFICANCE_MAP
  · subst hct
    unfold update_estimator
    dsimp only
    split <;> split <;> simp_all <;> omega
  · unfold update_estimator
    dsimp only
    split <;> split <;> simp_all <;> omega

/-- C3: on every estimator entry with `pos ≥ 1`, `neg ≥ 1` and
`pos + neg ≤ 0x60` (the shape of every entry reachable through
`update_state`), and for every `range ≥ pos + neg` (in particular every
`range ≥ min_range` of the recoded coder), `probability_for_model_key`
returns `(range / (pos + neg)) * pos` with `0 < r1 < range` — the model
never hands the coder a probability of 0 or of the full range; moreover
every `update_state_for_model_key` call preserves `pos ≥ 1`, `neg ≥ 1`,
`pos + neg ≤ 0x60`, and caps the total at `0x50` when the coding type is
`PIP_SIGNIFICANCE_MAP`, by halving both counts rounded up when the cap is
exceeded. -/

theorem C3_probability_nondegenerate :
    (∀ (m : H264Model) (key : MKey) (range : Nat),
        1 ≤ (m.est key).pos → 1 ≤ (m.est key).neg →
        (m.est key).pos + (m.est key).neg ≤ 0x60 →
        (m.est key).pos + (m.est key).neg ≤ range → range < two64 →
        0 < h264_probability_for_model_key m range key ∧
          h264_probability_for_model_key m range key < range) ∧
    (∀ (m : H264Model) (key : MKey) (symbol : Nat),
        1 ≤ (m.est key).pos → 1 ≤ (m.est key).neg →
        (m.est key).pos + (m.est key).neg ≤ 0x60 →
        1 ≤ ((update_state_for_model_key symbol key m).est key).pos ∧
          1 ≤ ((update_state_for_model_key symbol key m).est key).neg ∧
          ((update_state_for_model_key symbol key m).est key).pos +
            ((update_state_for_model_key symbol key m).est key).neg ≤ 0x60 ∧
          (m.coding_type = CodingType.PIP_SIGNIFICANCE_MAP →
            ((update_state_for_model_key symbol key m).est key).pos +
              ((update_state_for_model_key symbol key m).est key).neg ≤ 0x50)) := by
  constructor
  · intro m key range hp hn hcap hle hlt
    unfold h264_probability_for_model_key
    dsimp only
    have ht : 0 < (m.est key).pos + (m.est key).neg := by omega
    have hq : 1 ≤ range / ((m.est key).pos + (m.est key).neg) :=
      (Nat.one_le_div_iff ht).mpr hle
    have hqt : range / ((m.est key).pos + (m.est key).neg)
        * ((m.est key).pos + (m.est key).neg) ≤ range := Nat.div_mul_le_self range _
    have hmono : range / ((m.est key).pos + (m.est key).neg) * (m.est key).pos
          + range / ((m.est key).pos + (m.est key).neg)
        ≤ range / ((m.est key).pos + (m.est key).neg)
          * ((m.est key).pos + (m.est key).neg) := by
      have h2 : (m.est key).pos + 1 ≤ (m.est key).pos + (m.est key).neg := by omega
      calc range / ((m.est key).pos + (m.est key).neg) * (m.est key).pos
            + range / ((m.est key).pos + (m.est key).neg)
          = range / ((m.est key).pos + (m.est key).neg) * ((m.est key).pos + 1) := by ring
        _ ≤ range / ((m.est key).pos + (m.est key).neg)
            * ((m.est key).pos + (m.est key).neg) :=
          Nat.mul_le_mul_left _ h2
    have hlt2 : range / ((m.est key).pos + (m.est key).neg) * (m.est key).pos < range := by
      omega
    have hpos : 0 < range / ((m.est key).pos + (m.est key).neg) * (m.est key).pos :=
      Nat.mul_pos (by omega) (by omega)
    rw [Nat.mod_eq_of_lt (lt_trans hlt2 hlt)]
    exact ⟨hpos, hlt2⟩
  · intro m key symbol hp hn hcap
    rw [update_state_for_model_key_est]
    exact update_estimator_bounds m.coding_type symbol (m.est key) hp hn hcap

/-- Witness for `C3_probability_nondegenerate`: the default estimator entry
`(pos, neg) = (1, 1)` at `range = 0x60`, and one update in the
significance-map coding type. -/

theorem C3_probability_nondegenerate_witness :
    (0 < h264_probability_for_model_key mkModel 0x60 (0, 0, 0) ∧
      h264_probability_for_model_key mkModel 0x60 (0, 0, 0) < 0x60) ∧
    (1 ≤ ((update_state_for_model_key 1 (0, 0, 0)
            { mkModel with coding_type := CodingType.PIP_SIGNIFICANCE_MAP }).est (0, 0, 0)).pos ∧
      1 ≤ ((update_state_for_model_key 1 (0, 0, 0)
            { mkModel with coding_type := CodingType.PIP_SIGNIFICANCE_MAP }).est (0, 0, 0)).neg ∧
      ((update_state_for_model_key 1 (0, 0, 0)
            { mkModel with coding_type := CodingType.PIP_SIGNIFICANCE_MAP }).est (0, 0, 0)).pos +
        ((update_state_for_model_key 1 (0, 0, 0)
            { mkModel with coding_type := CodingType.PIP_SIGNIFICANCE_MAP }).est (0, 0, 0)).neg ≤ 0x60 ∧
      ({ mkModel with coding_type := CodingType.PIP_SIGNIFICANCE_MAP }.coding_type
            = CodingType.PIP_SIGNIFICANCE_MAP →
        ((update_state_for_model_key 1 (0, 0, 0)
            { mkModel with coding_type := CodingType.PIP_SIGNIFICANCE_MAP }).est (0, 0, 0)).pos +
          ((update_state_for_model_key 1 (0, 0, 0)
            { mkModel with coding_type := CodingType.PIP_SIGNIFICANCE_MAP }).est (0, 0, 0)).neg ≤ 0x50)) := by
  constructor
  · exact C3_probability_nondegenerate.1 mkModel (0, 0, 0) 0x60
      (by decide) (by decide) (by decide) (by decide) (by decide)
  · exact C3_probability_nondegenerate.2
      { mkModel with coding_type := CodingType.PIP_SIGNIFICANCE_MAP } (0, 0, 0) 1
      (by decide) (by decide) (by decide)

/-! ### Claim C6: the forced last coefficient of the significance map -/

/-- C6: in the significance-map walk, when a 0 symbol advances
`zigzag_index` to the position whose successor is `sub_mb_size` (i.e. the
state satisfies `zigzag_index + 2 = sub_mb_size` before the call),
`update_state_tracking` writes 1 into the final residual position
`scan8_index * 16 + (sub_mb_size - 1)` of the current sub-block, increments
`nonzeros_observed`, and transitions `coding_type` to `PIP_UNREACHABLE` —
all within this single call, consuming no further symbol. -/

theorem C6_sigmap_forced_last (m : H264Model)
    (hct : m.coding_type = CodingType.PIP_SIGNIFICANCE_MAP)
    (hzz : m.zigzag_index + 2 = m.sub_mb_size) :
    ((update_state_tracking 0 m).frames (update_state_tracking 0 m).cur_frame).blockResidual
        m.mb_x m.mb_y (m.scan8_index * 16 + (m.sub_mb_size - 1)) = 1
    ∧ (update_state_tracking 0 m).nonzeros_observed = m.nonzeros_observed + 1
    ∧ (update_state_tracking 0 m).coding_type = CodingType.PIP_UNREACHABLE := by
  obtain ⟨ct, mx, my, s8, zz, nz, cat, sz, dc, ch, cf, fr, est⟩ := m
  dsimp only at hct hzz ⊢
  subst hct
  have h1 : ¬(zz + 1 = sz) := by omega
  have h3 : zz + 1 + 1 = sz := by omega
  have h4 : sz - 1 = zz + 1 := by omega
  simp only [update_state_tracking, H264Model.setCurResidual]
  rw [if_neg h1, if_neg (by simp : ¬((0 : Nat) ≠ 0)), if_pos h3, h4]
  refine ⟨?_, ?_, ?_⟩
  · simp
  · simp
  · rfl

/-- Witness for `C6_sigmap_forced_last` at `mC6`. -/

theorem C6_sigmap_forced_last_witness :
    ((update_state_tracking 0 mC6).frames (update_state_tracking 0 mC6).cur_frame).blockResidual
        mC6.mb_x mC6.mb_y (mC6.scan8_index * 16 + (mC6.sub_mb_size - 1)) = 1
    ∧ (update_state_tracking 0 mC6).nonzeros_observed = mC6.nonzeros_observed + 1
    ∧ (update_state_tracking 0 mC6).coding_type = CodingType.PIP_UNREACHABLE :=
  C6_sigmap_forced_last mC6 rfl rfl

/-! ### Claim C5: EOB symbols cost zero bits of recoded payload -/

/-- C5: on the decompress path, when the model's coding type is
`PIP_SIGNIFICANCE_EOB`, `cabac_decoder::get` computes the symbol as the
truth value of `num_nonzeros == nonzeros_observed` taken from the model
key and consumes nothing from the arithmetic decoder (its state is
returned unchanged); symmetrically, on the compress path
`h264_symbol::execute` never submits an EOB symbol to the arithmetic
encoder — its encoder state is unchanged except for the terminate-symbol
flush, which emits no symbol either. -/

theorem C5_eob_zero_bits :
    (∀ (δ : Type) (dget : δ → (Nat → Nat) → Nat × δ) (s : DecompCabac δ) (context : Nat),
        s.model.coding_type = CodingType.PIP_SIGNIFICANCE_EOB →
        (decomp_get dget s context).1
            = (if ((s.model.frames s.model.cur_frame).meta s.model.mb_x s.model.mb_y).num_nonzeros
                    s.model.scan8_index = s.model.nonzeros_observed then 1 else 0)
          ∧ (decomp_get dget s context).2.dec = s.dec)
    ∧ (∀ (m : H264Model) (enc : EncState) (symbol context : Nat),
        m.coding_type = CodingType.PIP_SIGNIFICANCE_EOB →
        (h264_symbol_execute symbol context m enc).2
          = if context = terminate_context ∧ symbol ≠ 0 then enc.finish else enc) := by
  constructor
  · intro δ dget s context hct
    unfold decomp_get
    rw [if_pos hct]
    constructor
    · dsimp only
      unfold get_model_key
      rw [hct]
    · rfl
  · intro m enc symbol context hct
    unfold h264_symbol_execute
    dsimp only
    have hcond : ¬(m.coding_type ≠ CodingType.PIP_SIGNIFICANCE_EOB) := by simp [hct]
    rw [if_neg hcond]

/-- Witness for `C5_eob_zero_bits` at `sC5`. -/

theorem C5_eob_zero_bits_witness :
    ((decomp_get dgetTriv sC5 7).1
        = (if ((sC5.model.frames sC5.model.cur_frame).meta sC5.model.mb_x sC5.model.mb_y).num_nonzeros
              sC5.model.scan8_index = sC5.model.nonzeros_observed then 1 else 0)
      ∧ (decomp_get dgetTriv sC5 7).2.dec = sC5.dec)
    ∧ (h264_symbol_execute 1 7 sC5.model initEnc).2
        = (if 7 = terminate_context ∧ (1 : Nat) ≠ 0 then initEnc.finish else initEnc) :=
  ⟨C5_eob_zero_bits.1 (List Nat) dgetTriv sC5 7 rfl,
   C5_eob_zero_bits.2 sC5.model initEnc 1 7 rfl⟩

/-! ### Claim C4: parity and last-byte correction -/

/-- C4: for a reconstructed CABAC block whose envelope entry carries
`length_parity` and `last_byte`, after `decompressor::run`'s correction
step — one byte appended on a parity mismatch, the last byte overwritten
otherwise, on the output from which a trailing `0x80` was stripped by
`cabac_decoder::finish` — the final span ends with `last_byte` and its
length has parity `length_parity`. -/

theorem C4_parity_correction (cabac_out : List Nat) (p b : Nat)
    (hp : p ≤ 1) (hne : finish_strip cabac_out ≠ []) :
    (cabac_out.getLast? = some 0x80 → finish_strip cabac_out = cabac_out.dropLast)
    ∧ (cabac_out.getLast? ≠ some 0x80 → finish_strip cabac_out = cabac_out)
    ∧ (parity_correct p b (finish_strip cabac_out)).getLast? = some b
    ∧ (parity_correct p b (finish_strip cabac_out)).length % 2 = p := by
  refine ⟨fun h => by simp [finish_strip, h], fun h => by simp [finish_strip, h], ?_, ?_⟩
  all_goals
    unfold parity_correct
    have hlen : 1 ≤ (finish_strip cabac_out).length := List.length_pos.mpr hne
  · split <;> exact List.getLast?_concat _
  · split
    · rename_i hmis
      simp only [List.length_append, List.length_singleton]
      omega
    · rename_i hmat
      simp only [List.length_append, List.length_singleton, List.length_dropLast]
      omega

/-- Witness for `C4_parity_correction`: output `[5, 0x80]`, parity 1,
last byte 7. -/

theorem C4_parity_correction_witness :
    (([5, 0x80] : List Nat).getLast? = some 0x80 → finish_strip [5, 0x80] = ([5, 0x80] : List Nat).dropLast)
    ∧ (([5, 0x80] : List Nat).getLast? ≠ some 0x80 → finish_strip [5, 0x80] = [5, 0x80])
    ∧ (parity_correct 1 7 (finish_strip [5, 0x80])).getLast? = some 7
    ∧ (parity_correct 1 7 (finish_strip [5, 0x80])).length % 2 = 1 :=
  C4_parity_correction [5, 0x80] 1 7 (by decide) (by decide)

/-! ### Claim C7: surrogate markers -/

/-- The digit loop always produces `k` bytes. -/

theorem markerBytes_length (k n : Nat) : (markerBytes k n).length = k := by
  induction k generalizing n with
  | zero => rfl
  | succ m ih => simp [markerBytes, ih]

/-- Every byte of a marker lies in `{0x01 .. 0xFF}`. -/

theorem markerBytes_mem (k n : Nat) :
    ∀ b ∈ markerBytes k n, 1 ≤ b ∧ b ≤ 255 := by
  induction k generalizing n with
  | zero => intro b hb; simp [markerBytes] at hb
  | succ m ih =>
    intro b hb
    simp only [markerBytes, List.mem_cons] at hb
    rcases hb with hb | hb
    · subst hb
      have : n % 255 < 255 := Nat.mod_lt _ (by decide)
      omega
    · exact ih (n / 255) b hb

/-- The digit loop encodes the sequence number modulo `255^k`. -/

theorem markerVal_markerBytes (k : Nat) :
    ∀ n, markerVal (markerBytes k n) = n % 255 ^ k := by
  induction k with
  | zero => intro n; simp [markerBytes, markerVal, Nat.mod_one]
  | succ m ih =>
    intro n
    simp only [markerBytes, markerVal, ih]
    have h1 : (255 : Nat) ^ (m + 1) = 255 * 255 ^ m := by ring
    rw [h1, Nat.mod_mul]
    omega

/-- C7: every `next_surrogate_marker` call returns a string of exactly 8
bytes, each in `{0x01 .. 0xFF}` (never zero), and two distinct calls
within the first `255^8` calls of one decompressor (sequence numbers
`1 .. 255^8`) return distinct markers: the marker is the base-255-plus-1
encoding of the strictly increasing sequence counter. -/

theorem C7_surrogate_marker (j j' : Nat)
    (h1 : 1 ≤ j) (h2 : j ≤ 255 ^ 8) (h1' : 1 ≤ j') (h2' : j' ≤ 255 ^ 8) (hne : j ≠ j') :
    (next_surrogate_marker j).length = 8
    ∧ (∀ b ∈ next_surrogate_marker j, 1 ≤ b ∧ b ≤ 255 ∧ b ≠ 0)
    ∧ next_surrogate_marker j ≠ next_surrogate_marker j' := by
  refine ⟨markerBytes_length 8 j, ?_, ?_⟩
  · intro b hb
    have := markerBytes_mem 8 j b hb
    omega
  · intro heq
    have hv : j % 255 ^ 8 = j' % 255 ^ 8 := by
      have hc := congrArg markerVal heq
      rwa [next_surrogate_marker, next_surrogate_marker,
        markerVal_markerBytes, markerVal_markerBytes] at hc
    have hjm : j % 255 ^ 8 = if j = 255 ^ 8 then 0 else j := by
      rcases eq_or_lt_of_le h2 with he | hlt
      · simp [he]
      · rw [if_neg (Nat.ne_of_lt hlt), Nat.mod_eq_of_lt hlt]
    have hj'm : j' % 255 ^ 8 = if j' = 255 ^ 8 then 0 else j' := by
      rcases eq_or_lt_of_le h2' with he | hlt
      · simp [he]
      · rw [if_neg (Nat.ne_of_lt hlt), Nat.mod_eq_of_lt hlt]
    rw [hjm, hj'm] at hv
    split_ifs at hv with ha hb
    · exact hne (ha.trans hb.symm)
    · omega
    · omega
    · exact hne hv

/-- Witness for `C7_surrogate_marker` at the first two calls. -/

theorem C7_surrogate_marker_witness :
    (next_surrogate_marker 1).length = 8
    ∧ (∀ b ∈ next_surrogate_marker 1, 1 ≤ b ∧ b ≤ 255 ∧ b ≠ 0)
    ∧ next_surrogate_marker 1 ≠ next_surrogate_marker 2 :=
  C7_surrogate_marker 1 2 (by decide) (by norm_num) (by decide) (by norm_num) (by decide)

/-! ### Claim C8: surrogate blocks -/

/-- C8: `make_surrogate_block` raises an error exactly when
`size < marker.length = 8`; otherwise it returns a string of length
exactly `size` whose first 8 bytes are the marker and whose remaining
`size - 8` bytes are all the NAL-safe filler `0x58`, so a surrogate block
has the same size as the CABAC span it replaces and (for a marker without
zero bytes) contains no zero byte. -/

theorem C8_make_surrogate_block (marker : List Nat) (size : Nat)
    (hlen : marker.length = 8) (hnz : ∀ b ∈ marker, b ≠ 0) :
    (size < 8 →
      make_surrogate_block marker size
        = Except.error ("Invalid coded block size for surrogate: " ++ toString size))
    ∧ (8 ≤ size →
      ∃ bs, make_surrogate_block marker size = Except.ok bs
        ∧ bs.length = size
        ∧ bs.take 8 = marker
        ∧ bs.drop 8 = List.replicate (size - 8) 0x58
        ∧ ∀ b ∈ bs, b ≠ 0) := by
  constructor
  · intro hlt
    unfold make_surrogate_block
    rw [if_pos (by omega)]
  · intro hge
    refine ⟨marker ++ List.replicate (size - 8) 0x58, ?_, ?_, ?_, ?_, ?_⟩
    · unfold make_surrogate_block
      rw [if_neg (by omega), hlen]
    · simp [hlen]
      omega
    · rw [← hlen]
      exact List.take_left marker _
    · rw [← hlen]
      exact List.drop_left marker _
    · intro b hb
      rcases List.mem_append.mp hb with hb | hb
      · exact hnz b hb
      · have := List.eq_of_mem_replicate hb
        omega

/-- Witness for `C8_make_surrogate_block`: the first surrogate marker and a
10-byte block. -/

theorem C8_make_surrogate_block_witness :
    (10 < 8 →
      make_surrogate_block (next_surrogate_marker 1) 10
        = Except.error ("Invalid coded block size for surrogate: " ++ toString 10))
    ∧ (8 ≤ 10 →
      ∃ bs, make_surrogate_block (next_surrogate_marker 1) 10 = Except.ok bs
        ∧ bs.length = 10
        ∧ bs.take 8 = next_surrogate_marker 1
        ∧ bs.drop 8 = List.replicate (10 - 8) 0x58
        ∧ ∀ b ∈ bs, b ≠ 0) :=
  C8_make_surrogate_block (next_surrogate_marker 1) 10 (by decide) (by decide)

/-! ### Claim C1: theorems of the splice/envelope roundtrip -/

/-- Adjacent file slices concatenate. -/

theorem fileSlice_append (F : List Nat) (a b c : Nat) (hab : a ≤ b) (hbc : b ≤ c) :
    fileSlice F a b ++ fileSlice F b c = fileSlice F a c := by
  unfold fileSlice
  have h1 : c - a = (b - a) + (c - b) := by omega
  rw [h1, List.take_add]
  congr 1
  rw [List.drop_drop]
  have h2 : a + (b - a) = b := by omega
  rw [h2]

/-- Envelope sum property: for a well-formed event sequence the
concatenated original bytes of the emitted blocks tile the remainder of
the file exactly. -/

theorem compressBlocks_original (F : List Nat) :
    ∀ (evs : List SpliceEvent) (pce : Nat), wfEvents F pce evs →
      envelopeOriginal (compressBlocks F pce evs) = fileSlice F pce F.length := by
  intro evs
  induction evs with
  | nil =>
    intro pce _
    simp [compressBlocks, envelopeOriginal, blockOriginal]
  | cons e r ih =>
    intro pce h
    cases e with
    | cabacSpan start size =>
      obtain ⟨h1, h2, _, h4⟩ := h
      simp only [compressBlocks, envelopeOriginal, blockOriginal]
      rw [ih (start + size) h4]
      rw [fileSlice_append F start (start + size) F.length (Nat.le_add_right _ _) h2]
      rw [fileSlice_append F pce start F.length h1 (by omega)]
    | skipSpan size =>
      simp only [compressBlocks, envelopeOriginal, blockOriginal]
      rw [ih pce h]
      simp

/-- When every CABAC block's reconstruction equals its span, the
decompressor's concatenation equals the envelope's original bytes. -/

theorem decompOut_eq_envelope (reconAt : Nat → List Nat) :
    ∀ (blocks : List RBlock) (i0 : Nat),
      (∀ i sz p lb span, blocks[i]? = some (RBlock.cabac sz p lb span) →
        reconAt (i0 + i) = span) →
      decompOut reconAt i0 blocks = envelopeOriginal blocks := by
  intro blocks
  induction blocks with
  | nil => intro i0 _; rfl
  | cons b r ih =>
    intro i0 h
    have hshift : ∀ i sz p lb span, r[i]? = some (RBlock.cabac sz p lb span) →
        reconAt (i0 + 1 + i) = span := by
      intro i sz p lb span hr
      have := h (i + 1) sz p lb span (by simpa using hr)
      have harith : i0 + (i + 1) = i0 + 1 + i := by omega
      rwa [harith] at this
    cases b with
    | literal bs =>
      simp only [decompOut, envelopeOriginal, blockOriginal]
      rw [ih (i0 + 1) hshift]
    | cabac sz p lb span =>
      simp only [decompOut, envelopeOriginal, blockOriginal]
      rw [ih (i0 + 1) hshift]
      have := h 0 sz p lb span (by simp)
      simp only [Nat.add_zero] at this
      rw [this]
    | skipCoded sz =>
      simp only [decompOut, envelopeOriginal, blockOriginal]
      rw [ih (i0 + 1) hshift]
      simp

/-- C1: for every source file and well-formed splice-event sequence (the
shape of every run the compressor accepts), if each CABAC block's
reconstruction equals the span it restates, the concatenation — in order
— of the literal blocks, the reconstructed CABAC spans, and the
skip-coded spans carried in adjacent literals equals the original file;
and `roundtrip` returns 0 exactly when the decompressed byte string
equals the original. -/

theorem C1_envelope_roundtrip (F : List Nat) (evs : List SpliceEvent)
    (reconAt : Nat → List Nat)
    (hwf : wfEvents F 0 evs)
    (hrec : ∀ i sz p lb span,
        (compressBlocks F 0 evs)[i]? = some (RBlock.cabac sz p lb span) → reconAt i = span) :
    decompOut reconAt 0 (compressBlocks F 0 evs) = F
    ∧ ∀ (original decompressed : List Nat),
        roundtripResult original decompressed = 0 ↔ decompressed = original := by
  constructor
  · have h1 : decompOut reconAt 0 (compressBlocks F 0 evs)
        = envelopeOriginal (compressBlocks F 0 evs) := by
      refine decompOut_eq_envelope reconAt (compressBlocks F 0 evs) 0 ?_
      intro i sz p lb span hb
      have := hrec i sz p lb span hb
      simpa using this
    have h2 := compressBlocks_original F evs 0 hwf
    have h3 : fileSlice F 0 F.length = F := by simp [fileSlice]
    rw [h1, h2, h3]
  · intro original decompressed
    unfold roundtripResult
    split
    · rename_i he
      simp [he]
    · rename_i he
      constructor
      · intro hc
        exact (Nat.one_ne_zero hc).elim
      · intro hc
        exact absurd hc.symm he

/-- `reconExact` satisfies the reconstruction hypothesis. -/

theorem reconExact_spec (blocks : List RBlock) :
    ∀ i sz p lb span, blocks[i]? = some (RBlock.cabac sz p lb span) →
      reconExact blocks i = span := by
  intro i sz p lb span h
  unfold reconExact
  rw [h]

/-- Witness for `C1_envelope_roundtrip` on `fC1` and `evsC1`. -/

theorem C1_envelope_roundtrip_witness :
    decompOut (reconExact (compressBlocks fC1 0 evsC1)) 0 (compressBlocks fC1 0 evsC1) = fC1
    ∧ ∀ (original decompressed : List Nat),
        roundtripResult original decompressed = 0 ↔ decompressed = original :=
  C1_envelope_roundtrip fC1 evsC1 (reconExact (compressBlocks fC1 0 evsC1))
    (by exact ⟨by decide, by decide, by decide, trivial⟩)
    (reconExact_spec (compressBlocks fC1 0 evsC1))
